import Mathlib

/-!
A verification development for `janelia_core/ml/torch_distributions.py`.

Tensors are modelled as lists of real numbers (`Vec`) and lists of rows
(`Mat`).  Python values that may be tensors of various ranks, ints, lists or
`None` are modelled by the inductive type `Val`.  Fallible operations return
`Except Err _`, where `Err` distinguishes the exception classes the Python
code can raise: explicit `ValueError` raises, `AttributeError` (attribute
access such as `.shape` on `None`, an int or a list), `TypeError`
(iterating/unpacking a non-iterable), and `RuntimeError`/`IndexError`
(torch shape mismatches), the last two collapsed into `runtimeError`.

Sampling primitives (`torch.randn_like`, `Bernoulli.sample`) are modelled by
passing the drawn randomness in explicitly as a `Val` argument; a sample
function is then a deterministic function of the conditioning data and the
draws, which is exactly the reparameterized view the source takes.

`.squeeze()` calls at the end of `kl`/`other_kl` only drop singleton
dimensions and never change the stored values; results are kept as `Vec`.
-/

noncomputable section

namespace TorchDistributions

abbrev Vec := List ℝ
abbrev Mat := List (List ℝ)

/-- Number of `true` entries of a boolean mask. -/
def countTrue (s : List Bool) : ℕ := s.countP id

/-- Boolean-mask row selection, `x[support]` / `x[support, :]` in torch. -/
def maskSelect {α : Type} (xs : List α) (s : List Bool) : List α :=
  ((xs.zip s).filter (fun p => p.2)).map (fun p => p.1)

/-- Masked add `ll[support] += w`: add the entries of `w`, in order, at the `true`
positions of the mask. -/
def maskAdd : Vec → List Bool → Vec → Vec
  | [], _, _ => []
  | v, [], _ => v
  | a :: v, true :: s, [] => a :: maskAdd v s []
  | a :: v, true :: s, b :: w => (a + b) :: maskAdd v s w
  | a :: v, false :: s, w => a :: maskAdd v s w

/-- Scatter `formed[support, :] = rows` starting from an all-zero `n × d` matrix. -/
def scatterRows (d : ℕ) : List Bool → Mat → Mat
  | [], _ => []
  | true :: s, [] => List.replicate d 0 :: scatterRows d s []
  | true :: s, r :: m => r :: scatterRows d s m
  | false :: s, m => List.replicate d 0 :: scatterRows d s m

/-- Scatter `formed[support] = w` starting from an all-zero length-`n` vector. -/
def scatterVals : List Bool → Vec → Vec
  | [], _ => []
  | true :: s, [] => 0 :: scatterVals s []
  | true :: s, b :: w => b :: scatterVals s w
  | false :: s, w => 0 :: scatterVals s w

/-- Concatenation of a list of lists. -/
def flattenL {α : Type} : List (List α) → List α
  | [] => []
  | l :: ls => l ++ flattenL ls

/-- A byte tensor viewed as a float tensor of zeros and ones. -/
def boolVals (b : List Bool) : Vec := b.map (fun t => if t then (1 : ℝ) else 0)

/-- The exception classes relevant to `torch_distributions.py`. -/
inductive Err where
  | valueError
  | attributeError
  | runtimeError
  | typeError
deriving DecidableEq

/-- Python values flowing through the module: rank-1 float tensors, rank-2
float tensors, rank-1 byte/bool tensors, ints, lists, and `None`. -/
inductive Val where
  | vec (v : Vec)
  | mat (m : Mat)
  | bvec (b : List Bool)
  | vnat (n : ℕ)
  | list (l : List Val)
  | none

/-- The concrete runtime class of a distribution object (`type(d)`). -/
inductive Kind where
  | bernoulli
  | gaussian
  | spikeSlab
  | matrixProduct
deriving DecidableEq

/-- The four concrete `CondVAEDistriubtion` subclasses.  The user-supplied
submodules (`log_prob_fcn`, `mn_f`, `std_f`) are modelled as arbitrary
functions; `params` records the (identifiers of the) torch parameters
registered under each leaf module, as collected by `self.parameters()`. -/
inductive CondDist where
  | bernoulli (log_prob_fcn : Mat → Vec) (params : List ℕ)
  | gaussian (mn_f std_f : Mat → Mat) (params : List ℕ)
  | spikeSlab (d : ℕ) (spike_d slab_d : CondDist)
  | matrixProduct (dists : List CondDist)

/-- Python `type(d)` as used by the `kl` family-mismatch check. -/
def kind : CondDist → Kind
  | .bernoulli _ _ => .bernoulli
  | .gaussian _ _ _ => .gaussian
  | .spikeSlab _ _ _ => .spikeSlab
  | .matrixProduct _ => .matrixProduct

mutual

/-- Model of `list(self.parameters())`: all torch parameters registered under the
module, including those of all child modules. -/
def parameters : CondDist → List ℕ
  | .bernoulli _ ps => ps
  | .gaussian _ _ ps => ps
  | .spikeSlab _ sp sl => parameters sp ++ parameters sl
  | .matrixProduct ds => parametersList ds

/-- Parameters of a `torch.nn.ModuleList` of distributions. -/
def parametersList : List CondDist → List ℕ
  | [] => []
  | d :: ds => parameters d ++ parametersList ds

end

/-- The `r_params` of each variant, as written in the source:
Bernoulli returns `list()`, Gaussian returns `list(self.parameters())`,
spike-and-slab returns `self.slab_d.r_params()`, and the matrix product
returns `list(self.parameters())`. -/
def r_params : CondDist → List ℕ
  | .bernoulli _ _ => []
  | .gaussian _ _ ps => ps
  | .spikeSlab _ _ sl => r_params sl
  | .matrixProduct ds => parameters (.matrixProduct ds)

/-- The `s_params` of each variant, as written in the source:
Bernoulli returns `list(self.parameters())`, Gaussian returns `list()`,
spike-and-slab returns `self.spike_d.s_params()`, and the matrix product
returns `list()`. -/
def s_params : CondDist → List ℕ
  | .bernoulli _ ps => ps
  | .gaussian _ _ _ => []
  | .spikeSlab _ sp _ => s_params sp
  | .matrixProduct _ => []

/-- One entry of `CondBernoulliDistribution.log_prob`: the gate output where
`y` is non-zero, `log(1 - exp(gate))` where `y` is zero. -/
def bernRow (lp y : ℝ) : ℝ := if y = 0 then Real.log (1 - Real.exp lp) else lp

/-- Body of `CondBernoulliDistribution.log_prob` after the rank-1 check.
A mask whose length disagrees with `torch.zeros(n_smps)` (or a gate output
of the wrong length) raises in torch; modelled as `runtimeError`. -/
def bern_log_prob (f : Mat → Vec) (x : Mat) (v : Vec) : Except Err Vec :=
  if v.length = x.length ∧ (f x).length = x.length then
    .ok (List.zipWith bernRow (f x) v)
  else .error .runtimeError

/-- The `y.unsqueeze(1)` promotion used by `CondGaussianDistribution.log_prob`:
rank-1 inputs become single-column matrices, rank-2 inputs are unchanged,
anything without a tensor shape has no `.shape`/`dim` and fails. -/
def asMat2 : Val → Option Mat
  | .vec v => some (v.map (fun a => [a]))
  | .bvec b => some ((boolVals b).map (fun a => [a]))
  | .mat m => some m
  | _ => Option.none

/-- One row of the diagonal-Gaussian log density:
`-(1/2) Σ_j ((y_j - mn_j)/std_j)^2 - Σ_j log std_j - (d_y/2) log(2π)`. -/
def gaussRow (dy : ℕ) (yr mr sr : Vec) : ℝ :=
  -(1 / 2) * ((List.zipWith (fun a p => ((a - p.1) / p.2) ^ 2) yr (mr.zip sr)).sum)
    - ((sr.map Real.log).sum)
    - (1 / 2) * (dy : ℝ) * Real.log (2 * Real.pi)

/-- Model of `CondGaussianDistribution.log_prob`. -/
def gauss_log_prob (mn_f std_f : Mat → Mat) (x : Mat) (y : Val) : Except Err Vec :=
  match asMat2 y with
  | Option.none => .error .attributeError
  | some ym =>
    let mn := mn_f x
    let std := std_f x
    if ym.map List.length = mn.map List.length ∧ mn.map List.length = std.map List.length then
      let dy := (ym.headD []).length
      .ok (List.zipWith (fun yr p => gaussRow dy yr p.1 p.2) ym (mn.zip std))
    else .error .runtimeError

/-- Pointwise binary operation on matrices of matching shape. -/
def matZipWith (f : ℝ → ℝ → ℝ) (a b : Mat) : Mat := List.zipWith (List.zipWith f) a b

/-- Model of `CondGaussianDistribution.sample`: `mn_f(x) + z * std_f(x)` with
`z = torch.randn_like(std)` supplied as the draw. -/
def gauss_sample (mn_f std_f : Mat → Mat) (x : Mat) (z : Mat) : Except Err Val :=
  let mn := mn_f x
  let std := std_f x
  if z.map List.length = std.map List.length ∧ mn.map List.length = std.map List.length then
    .ok (.mat (matZipWith (fun m v => m + v) mn (matZipWith (fun a b => a * b) z std)))
  else .error .runtimeError

/-- One row of `CondGaussianDistribution.other_kl`:
`(1/2) ((log det₂ - log det₁) - d + Σ std₁²/std₂² + Σ ((mn₂-mn₁)/std₂)²)`
with `log detᵢ = 2 Σ_j log stdᵢ_j`. -/
def klRow (d : ℕ) (m1 s1 m2 s2 : Vec) : ℝ :=
  (1 / 2) * ((2 * ((s2.map Real.log).sum) - 2 * ((s1.map Real.log).sum)) - (d : ℝ)
    + ((List.zipWith (fun a b => a ^ 2 / b ^ 2) s1 s2).sum)
    + ((List.zipWith (fun p b => ((b - p.1) / p.2) ^ 2) (m1.zip s2) m2).sum))

/-- Model of `CondGaussianDistribution.other_kl`.  Only the Gaussian class defines the
method; invoking it on any other variant is an `AttributeError`, and its own
first statement raises `ValueError` when the other distribution is of a
different type.  The `smp` argument is accepted and never used. -/
def other_kl (d1 d2 : CondDist) (x : Mat) (smp : Val) : Except Err Vec :=
  match d1, d2 with
  | .gaussian mn1 std1 _, .gaussian mn2 std2 _ =>
    let m1 := mn1 x
    let s1 := std1 x
    let m2 := mn2 x
    let s2 := std2 x
    if m1.map List.length = s1.map List.length ∧ s1.map List.length = m2.map List.length
        ∧ m2.map List.length = s2.map List.length then
      .ok (List.zipWith (fun p q => klRow (m1.headD []).length p.1 p.2 q.1 q.2)
        (m1.zip s1) (m2.zip s2))
    else .error .runtimeError
  | .gaussian _ _ _, _ => .error .valueError
  | _, _ => .error .attributeError

mutual

/-- The `log_prob` of each variant.

Bernoulli: raises `ValueError` unless `y` is rank 1 (`.shape` access on a
non-tensor raises `AttributeError` instead).

Gaussian: `gauss_log_prob`.

Spike-and-slab: unpacks `n_smps, support, nz_vls = y` (a list of another
length fails to unpack with `ValueError`; a non-sequence with `TypeError`),
takes the spike log probability of the full support pattern, and where any
support is active adds the slab log probability of the selected rows at the
active positions (`ll[support] += ...`; a slab result whose length does not
match the number of active entries is a torch shape error).  Support masks
are byte tensors, as produced by a Bernoulli spike.

Matrix product: zips the per-column samples with the column distributions
(`zip` truncates at the shorter), views each column's log probability as an
`n_rows × 1` column (a torch error if a column result is not of length
`n_rows`, or if there are no columns to concatenate) and sums across
columns per row. -/
def log_prob : CondDist → Mat → Val → Except Err Vec
  | .bernoulli f _, x, y =>
    match y with
    | .vec v => bern_log_prob f x v
    | .bvec b => bern_log_prob f x (boolVals b)
    | .mat _ => .error .valueError
    | _ => .error .attributeError
  | .gaussian mn_f std_f _, x, y => gauss_log_prob mn_f std_f x y
  | .spikeSlab _ sp sl, x, y =>
    match y with
    | .list [.vnat _, .bvec support, nz] => do
      let ll ← log_prob sp x (.bvec support)
      if support.any id then do
        let sll ← log_prob sl (maskSelect x support) nz
        if sll.length = countTrue support then .ok (maskAdd ll support sll)
        else .error .runtimeError
      else .ok ll
    | .list _ => .error .valueError
    | _ => .error .typeError
  | .matrixProduct ds, x, y =>
    match y with
    | .list l => do
      let cols ← colLogProbs ds x l
      match cols with
      | [] => .error .runtimeError
      | c0 :: rest =>
        if (c0 :: rest).all (fun c => decide (c.length = x.length)) then
          .ok (rest.foldl (List.zipWith (fun a b => a + b)) c0)
        else .error .runtimeError
    | _ => .error .typeError

/-- The per-column log probabilities `[d.log_prob(x, c_s) for c_s, d in zip(y, dists)]`. -/
def colLogProbs : List CondDist → Mat → List Val → Except Err (List Vec)
  | _, _, [] => .ok []
  | [], _, _ => .ok []
  | d :: ds, x, s :: l => do
    let c ← log_prob d x s
    let rest ← colLogProbs ds x l
    .ok (c :: rest)

end

/-- Model of `CondVAEDistriubtion.kl`, inherited unchanged by all four variants:
check `type(d_2) != type(self)` and raise `ValueError` on mismatch, then
return `self.log_prob(x, smp) - d_2.log_prob(x, smp)`.  When the caller
omits `smp` it is `None`, which is then passed to `log_prob` as is. -/
def kl (d1 d2 : CondDist) (x : Mat) (smp : Val) : Except Err Vec :=
  if kind d2 = kind d1 then do
    let a ← log_prob d1 x smp
    let b ← log_prob d2 x smp
    .ok (List.zipWith (fun p q => p - q) a b)
  else .error .valueError

/-- Requires every part to be a rank-2 tensor (what `torch.cat(.., dim=1)`
accepts when some part is rank 2). -/
def allMats : List Val → Option (List Mat)
  | [] => some []
  | .mat m :: rest => (allMats rest).map (fun ms => m :: ms)
  | _ => Option.none

mutual

/-- The `form_standard_sample` of each variant.

Bernoulli and Gaussian return the sample unchanged.

Spike-and-slab unpacks `n_smps, support, nz_vls`; when `nz_vls is None` it
returns the all-zero `n × d` matrix, when `nz_vls` has rank above one it
scatters its rows into an all-zero `n × d` matrix at the active mask
positions, and when it is rank 1 it scatters its values into an all-zero
length-`n` vector (so the result is rank 1 in that branch).

Matrix product maps each column's `form_standard_sample` over the zipped
columns and concatenates along dim 1; `torch.cat(.., dim=1)` demands a
non-empty list of rank-2 tensors with equal row counts. -/
def form_standard : CondDist → Val → Except Err Val
  | .bernoulli _ _, s => .ok s
  | .gaussian _ _ _, s => .ok s
  | .spikeSlab d _ _, s =>
    match s with
    | .list [.vnat n, supV, nz] =>
      match nz with
      | Val.none => .ok (.mat (List.replicate n (List.replicate d 0)))
      | .mat m =>
        match supV with
        | .bvec support =>
          if support.length = n ∧ m.length = countTrue support
              ∧ m.all (fun r => decide (r.length = d)) then
            .ok (.mat (scatterRows d support m))
          else .error .runtimeError
        | _ => .error .runtimeError
      | .vec w =>
        match supV with
        | .bvec support =>
          if support.length = n ∧ w.length = countTrue support then
            .ok (.vec (scatterVals support w))
          else .error .runtimeError
        | _ => .error .runtimeError
      | .bvec b =>
        match supV with
        | .bvec support =>
          if support.length = n ∧ b.length = countTrue support then
            .ok (.vec (scatterVals support (boolVals b)))
          else .error .runtimeError
        | _ => .error .runtimeError
      | _ => .error .attributeError
    | .list _ => .error .valueError
    | _ => .error .typeError
  | .matrixProduct ds, s =>
    match s with
    | .list l => do
      let parts ← formStdCols ds l
      match allMats parts with
      | some (m0 :: ms) =>
        if (m0 :: ms).all (fun mm => decide (mm.length = m0.length)) then
          .ok (.mat (ms.foldl (fun acc mm => List.zipWith (fun r q => r ++ q) acc mm) m0))
        else .error .runtimeError
      | _ => .error .runtimeError
    | _ => .error .typeError

/-- Model of `[d.form_standard_sample(s) for s, d in zip(smp, dists)]` (zip truncates). -/
def formStdCols : List CondDist → List Val → Except Err (List Val)
  | _, [] => .ok []
  | [], _ => .ok []
  | d :: ds, s :: l => do
    let v ← form_standard d s
    let rest ← formStdCols ds l
    .ok (v :: rest)

end

/-- Column `c` of a matrix as an `n × 1` matrix (`smp[:, c].view([n, 1])`). -/
def columnOf (m : Mat) (c : ℕ) : Mat := m.map (fun r => [r.getD c 0])

/-- The `form_compact_sample` of each variant.

Bernoulli and Gaussian return the sample unchanged.

Spike-and-slab (rank-2 input, `d > 1`): the support marks the rows whose
count of non-zero entries equals `d`; the non-zero values are the selected
rows, or `None` when no row is active.  For `d <= 1` the source falls into
`support = smp != 0` followed by `smp[support, :]`, which indexes a rank-2
matrix with a rank-2 mask plus a slice and raises; rank-1 input likewise
raises on `dim=1` or on `smp[support, :]`.

Matrix product: splits the matrix into `n × 1` column views and calls each
column distribution's `form_standard_sample` on its column (the source calls
`form_standard_sample` here, not `form_compact_sample`); a rank-1 input
fails the `n_rows, n_cols = smp.shape` unpacking with `ValueError`. -/
def form_compact : CondDist → Val → Except Err Val
  | .bernoulli _ _, s => .ok s
  | .gaussian _ _ _, s => .ok s
  | .spikeSlab d _ _, s =>
    match s with
    | .mat m =>
      if 1 < d then
        let support := m.map (fun r => decide (r.countP (fun a => decide (a ≠ 0)) = d))
        if support.any id then
          .ok (.list [.vnat m.length, .bvec support, .mat (maskSelect m support)])
        else .ok (.list [.vnat m.length, .bvec support, Val.none])
      else .error .runtimeError
    | .vec _ => .error .runtimeError
    | .bvec _ => .error .runtimeError
    | _ => .error .attributeError
  | .matrixProduct ds, s =>
    match s with
    | .mat m => do
      let res ← formStdCols ds ((List.range (m.headD []).length).map
        (fun c => Val.mat (columnOf m c)))
      .ok (.list res)
    | .vec _ => .error .valueError
    | .bvec _ => .error .valueError
    | _ => .error .attributeError

mutual

/-- The `sample` of each variant, with the primitive draws passed in as `w`.

Bernoulli: the draw of `torch.distributions.Bernoulli(probs).sample().byte()`
is a byte tensor of length `n_smps`.

Gaussian: the draw is `z = torch.randn_like(std)`; returns `mn + z * std`.

Spike-and-slab: `support = spike_d.form_standard_sample(spike_d.sample(x))`;
if any support is active the slab is sampled on the selected rows of `x`,
otherwise `nz_vls` is `None` and the slab draw is never consumed.  Returns
`[n_smps, support, nz_vls]`.

Matrix product: `[d.sample(x) for d in dists]`, so one draw per column. -/
def sample : CondDist → Mat → Val → Except Err Val
  | .bernoulli _ _, x, w =>
    match w with
    | .bvec b => if b.length = x.length then .ok (.bvec b) else .error .runtimeError
    | _ => .error .runtimeError
  | .gaussian mn_f std_f _, x, w =>
    match w with
    | .mat z => gauss_sample mn_f std_f x z
    | _ => .error .runtimeError
  | .spikeSlab _ sp sl, x, w =>
    match w with
    | .list [wsp, wsl] => do
      let spSmp ← sample sp x wsp
      let supV ← form_standard sp spSmp
      match supV with
      | .bvec support =>
        if support.length = x.length then
          if support.any id then do
            let nz ← sample sl (maskSelect x support) wsl
            .ok (.list [.vnat x.length, .bvec support, nz])
          else .ok (.list [.vnat x.length, .bvec support, Val.none])
        else .error .runtimeError
      | _ => .error .runtimeError
    | _ => .error .runtimeError
  | .matrixProduct ds, x, w =>
    match w with
    | .list ws => do
      let smps ← sampleCols ds x ws
      .ok (.list smps)
    | _ => .error .runtimeError

/-- Draws for every column distribution in turn. -/
def sampleCols : List CondDist → Mat → List Val → Except Err (List Val)
  | [], _, _ => .ok []
  | _ :: _, _, [] => .error .runtimeError
  | d :: ds, x, w :: ws => do
    let s ← sample d x w
    let rest ← sampleCols ds x ws
    .ok (s :: rest)

end

/-- Composite `standardOfSample D x w`, that is `D.form_standard_sample(D.sample(x))` with
draws `w`. -/
def standardOfSample (D : CondDist) (x : Mat) (w : Val) : Except Err Val := do
  let c ← sample D x w
  form_standard D c

/-- The round-trip chain
`D.form_standard_sample(D.form_compact_sample(D.form_standard_sample(D.sample(x))))`. -/
def chainStd (D : CondDist) (x : Mat) (w : Val) : Except Err Val := do
  let c ← sample D x w
  let s ← form_standard D c
  let c2 ← form_compact D s
  form_standard D c2

/-! ### Generic list lemmas -/

@[simp] theorem exc_bind_ok {e α β : Type} (a : α) (f : α → Except e β) :
    (Except.ok a >>= f : Except e β) = f a := rfl

@[simp] theorem exc_bind_error {e α β : Type} (err : e) (f : α → Except e β) :
    (Except.error err >>= f : Except e β) = Except.error err := rfl

theorem getD_zipWith {α β γ : Type} (f : α → β → γ) (da : α) (db : β) (dc : γ) :
    ∀ (as : List α) (bs : List β) (i : ℕ), i < as.length → i < bs.length →
      (List.zipWith f as bs).getD i dc = f (as.getD i da) (bs.getD i db)
  | _ :: _, _ :: _, 0, _, _ => rfl
  | _ :: as, _ :: bs, i + 1, h1, h2 =>
    getD_zipWith f da db dc as bs i (Nat.lt_of_succ_lt_succ h1) (Nat.lt_of_succ_lt_succ h2)

theorem getD_mapL {α β : Type} (f : α → β) (da : α) (db : β) :
    ∀ (as : List α) (i : ℕ), i < as.length → (as.map f).getD i db = f (as.getD i da)
  | _ :: _, 0, _ => rfl
  | _ :: as, i + 1, h => getD_mapL f da db as i (Nat.lt_of_succ_lt_succ h)

theorem sum_eq_range_getD : ∀ (l : List ℝ), l.sum = ∑ j in Finset.range l.length, l.getD j 0
  | [] => by simp
  | a :: l => by
    rw [List.sum_cons, List.length_cons, Finset.sum_range_succ']
    simp only [List.getD_cons_succ, List.getD_cons_zero]
    rw [sum_eq_range_getD l]
    ring

@[simp] theorem countTrue_nil : countTrue [] = 0 := rfl

@[simp] theorem countTrue_cons_true (s : List Bool) :
    countTrue (true :: s) = countTrue s + 1 := by
  simp [countTrue, List.countP_cons]

@[simp] theorem countTrue_cons_false (s : List Bool) :
    countTrue (false :: s) = countTrue s := by
  simp [countTrue, List.countP_cons]

theorem flattenL_cons {α : Type} (l : List α) (ls : List (List α)) :
    flattenL (l :: ls) = l ++ flattenL ls := rfl

/-! ### Lemmas about the mask and scatter helpers -/

theorem maskAdd_length : ∀ (v : Vec) (s : List Bool) (w : Vec), (maskAdd v s w).length = v.length
  | [], _, _ => by simp [maskAdd]
  | _ :: _, [], _ => by simp [maskAdd]
  | a :: v, true :: s, [] => by simp [maskAdd, maskAdd_length v s []]
  | a :: v, true :: s, b :: w => by simp [maskAdd, maskAdd_length v s w]
  | a :: v, false :: s, w => by simp [maskAdd, maskAdd_length v s w]

theorem maskAdd_getD : ∀ (v : Vec) (s : List Bool) (w : Vec),
    countTrue s ≤ w.length → ∀ i, i < v.length →
    (maskAdd v s w).getD i 0
      = v.getD i 0 + (if s.getD i false then w.getD (countTrue (s.take i)) 0 else 0)
  | [], _, _, _, i, hi => by simp at hi
  | _ :: _, [], _, _, 0, _ => by simp [maskAdd]
  | a :: v, [], w, _, i + 1, hi => by
    simp [maskAdd]
  | a :: v, true :: s, [], hw, i, hi => by
    simp at hw
  | a :: v, true :: s, b :: w, hw, 0, _ => by
    simp [maskAdd]
  | a :: v, true :: s, b :: w, hw, i + 1, hi => by
    have hw' : countTrue s ≤ w.length := by
      simp at hw; omega
    have ih := maskAdd_getD v s w hw' i (Nat.lt_of_succ_lt_succ hi)
    simp only [maskAdd, List.getD_cons_succ, List.take_succ_cons, countTrue_cons_true]
    rw [ih]
  | a :: v, false :: s, w, hw, 0, _ => by
    simp [maskAdd]
  | a :: v, false :: s, w, hw, i + 1, hi => by
    have ih := maskAdd_getD v s w (by simpa using hw) i (Nat.lt_of_succ_lt_succ hi)
    simp only [maskAdd, List.getD_cons_succ, List.take_succ_cons, countTrue_cons_false]
    rw [ih]

@[simp] theorem maskSelect_nil_left {α : Type} (s : List Bool) :
    maskSelect ([] : List α) s = [] := rfl

@[simp] theorem maskSelect_nil_right {α : Type} (xs : List α) :
    maskSelect xs [] = [] := by
  cases xs <;> rfl

@[simp] theorem maskSelect_cons_true {α : Type} (x : α) (xs : List α) (s : List Bool) :
    maskSelect (x :: xs) (true :: s) = x :: maskSelect xs s := by
  simp [maskSelect]

@[simp] theorem maskSelect_cons_false {α : Type} (x : α) (xs : List α) (s : List Bool) :
    maskSelect (x :: xs) (false :: s) = maskSelect xs s := by
  simp [maskSelect]

theorem maskSelect_length {α : Type} :
    ∀ (xs : List α) (s : List Bool), s.length = xs.length →
      (maskSelect xs s).length = countTrue s
  | [], [], _ => rfl
  | x :: xs, true :: s, h => by
    simp only [maskSelect_cons_true, List.length_cons, countTrue_cons_true]
    rw [maskSelect_length xs s (Nat.succ_injective h)]
  | x :: xs, false :: s, h => by
    simp only [maskSelect_cons_false, countTrue_cons_false]
    exact maskSelect_length xs s (Nat.succ_injective h)

theorem mem_maskSelect {α : Type} {a : α} :
    ∀ {xs : List α} {s : List Bool}, a ∈ maskSelect xs s → a ∈ xs := by
  intro xs
  induction xs with
  | nil => intro s h; simp at h
  | cons x xs ih =>
    intro s h
    cases s with
    | nil => simp at h
    | cons b s =>
      cases b with
      | true =>
        rw [maskSelect_cons_true] at h
        rcases List.mem_cons.mp h with h1 | h2
        · exact List.mem_cons.mpr (Or.inl h1)
        · exact List.mem_cons.mpr (Or.inr (ih h2))
      | false =>
        rw [maskSelect_cons_false] at h
        exact List.mem_cons.mpr (Or.inr (ih h))

@[simp] theorem scatterRows_nil (d : ℕ) (m : Mat) : scatterRows d [] m = [] := rfl

@[simp] theorem scatterRows_cons_true (d : ℕ) (s : List Bool) (r : Vec) (m : Mat) :
    scatterRows d (true :: s) (r :: m) = r :: scatterRows d s m := rfl

@[simp] theorem scatterRows_cons_true_nil (d : ℕ) (s : List Bool) :
    scatterRows d (true :: s) [] = List.replicate d 0 :: scatterRows d s [] := rfl

@[simp] theorem scatterRows_cons_false (d : ℕ) (s : List Bool) (m : Mat) :
    scatterRows d (false :: s) m = List.replicate d 0 :: scatterRows d s m := rfl

theorem scatterRows_length (d : ℕ) : ∀ (s : List Bool) (m : Mat),
    (scatterRows d s m).length = s.length
  | [], _ => rfl
  | true :: s, [] => by simp [scatterRows_length d s []]
  | true :: s, r :: m => by simp [scatterRows_length d s m]
  | false :: s, m => by simp [scatterRows_length d s m]

theorem maskSelect_scatterRows (d : ℕ) : ∀ (s : List Bool) (m : Mat),
    m.length = countTrue s → maskSelect (scatterRows d s m) s = m
  | [], m, h => by
    simp at h
    simp [h]
  | true :: s, [], h => by
    simp at h
  | true :: s, r :: m, h => by
    simp at h
    simp [maskSelect_scatterRows d s m h]
  | false :: s, m, h => by
    simp at h
    simp [maskSelect_scatterRows d s m h]

theorem scatterRows_maskSelect (d : ℕ) : ∀ (s : List Bool) (rows : Mat),
    s.length = rows.length →
    (∀ p ∈ rows.zip s, p.2 = false → p.1 = List.replicate d 0) →
    scatterRows d s (maskSelect rows s) = rows
  | [], [], _, _ => rfl
  | [], r :: rows, h, _ => by simp at h
  | b :: s, [], h, _ => by simp at h
  | true :: s, r :: rows, h, hz => by
    rw [maskSelect_cons_true, scatterRows_cons_true,
      scatterRows_maskSelect d s rows (Nat.succ_injective h)
        (fun p hp hf => hz p (List.mem_cons.mpr (Or.inr hp)) hf)]
  | false :: s, r :: rows, h, hz => by
    rw [maskSelect_cons_false, scatterRows_cons_false,
      scatterRows_maskSelect d s rows (Nat.succ_injective h)
        (fun p hp hf => hz p (List.mem_cons.mpr (Or.inr hp)) hf),
      ← hz (r, false) (by simp [List.zip_cons_cons]) rfl]

theorem parametersList_eq_flatten : ∀ ds : List CondDist,
    parametersList ds = flattenL (ds.map parameters)
  | [] => rfl
  | d :: ds => by
    simp only [parametersList, List.map_cons, flattenL_cons]
    rw [parametersList_eq_flatten ds]

/-! ### Concrete instances used by counterexamples and witnesses -/

/-- A conditional Gaussian with mean 0 and standard deviation 1 on every
conditioning row (one output column), no registered parameters. -/
def stdNormal : CondDist :=
  .gaussian (fun x => x.map (fun _ => [0])) (fun x => x.map (fun _ => [1])) []

/-- A conditional Gaussian with mean 1 and standard deviation 1 on every
conditioning row (one output column), no registered parameters. -/
def meanOne : CondDist :=
  .gaussian (fun x => x.map (fun _ => [1])) (fun x => x.map (fun _ => [1])) []

/-- A conditional Bernoulli whose gate always reports log probability
`log(1/2)`, no registered parameters. -/
def halfBern : CondDist :=
  .bernoulli (fun x => x.map (fun _ => Real.log (1 / 2))) []

/-- A Gaussian column whose (single) torch parameter has identifier `0`. -/
def gaussP : CondDist := .gaussian (fun x => x) (fun x => x) [0]

/-- A Bernoulli column whose (single) torch parameter has identifier `1`. -/
def bernP : CondDist := .bernoulli (fun _ => []) [1]

/-- The two-column matrix product of `gaussP` and `bernP`. -/
def prodGB : CondDist := .matrixProduct [gaussP, bernP]

/-! ### C1 -/

/-- C1: the claim says `p1.kl(p2, x, smp)` on Gaussians computes the analytic
closed-form KL independently of any supplied sample.  In the code the
analytic expression is defined under the name `other_kl` and `kl` is not
overridden, so `kl` is the inherited single-sample estimator: between a
standard normal and a mean-one unit-variance Gaussian conditioned on
`x = [[0]]`, `kl` returns `-(1/2)` at the supplied sample `[[1]]` and `1/2`
at `[[0]]` (so it depends on the sample), crashes with `AttributeError` when
the sample is omitted, while `other_kl` returns the analytic value `1/2`
regardless of the sample argument. -/
theorem C1_gaussian_kl_not_overridden :
    kl stdNormal meanOne [[0]] (.mat [[1]]) = .ok [-(1 / 2)]
    ∧ kl stdNormal meanOne [[0]] (.mat [[0]]) = .ok [1 / 2]
    ∧ kl stdNormal meanOne [[0]] Val.none = .error .attributeError
    ∧ other_kl stdNormal meanOne [[0]] (.mat [[1]]) = .ok [1 / 2]
    ∧ other_kl stdNormal meanOne [[0]] Val.none = .ok [1 / 2] := by
  refine ⟨?_, ?_, ?_, ?_, ?_⟩
  · simp [kl, kind, stdNormal, meanOne, log_prob, gauss_log_prob, asMat2, gaussRow]
  · simp [kl, kind, stdNormal, meanOne, log_prob, gauss_log_prob, asMat2, gaussRow]
    ring
  · simp [kl, kind, stdNormal, meanOne, log_prob, gauss_log_prob, asMat2]
  · simp [other_kl, stdNormal, meanOne, klRow]
  · simp [other_kl, stdNormal, meanOne, klRow]

/-! ### C2 -/

/-- C2 counterexample: the claim says that when the optional sample is
omitted, `kl` draws its own sample from `P_self(.|x)` and succeeds.  In the
code the omitted sample is `None`, which is passed to `log_prob` unchanged
and crashes on the `y.shape` access; no sample is ever drawn. -/
theorem C2_counterexample_omitted_sample_crashes :
    kl halfBern halfBern [[0]] Val.none = .error .attributeError := by
  simp [kl, kind, halfBern, log_prob]

/-- C2 (amended): `kl(d2, x, smp)` is the single-sample estimator using
exactly the caller-supplied sample, `log P_self(smp|x) - log P_other(smp|x)`
per row; the sample parameter is syntactically optional (defaulting to
`None`) but the method never draws its own sample — with the sample omitted,
`None` reaches `log_prob` and the call fails with `AttributeError` (shown
here for the Bernoulli and Gaussian variants). -/
theorem C2_kl_uses_supplied_sample :
    (∀ (d1 d2 : CondDist) (x : Mat) (smp : Val) (v1 v2 : Vec),
      kind d2 = kind d1 →
      log_prob d1 x smp = .ok v1 →
      log_prob d2 x smp = .ok v2 →
      kl d1 d2 x smp = .ok (List.zipWith (fun p q => p - q) v1 v2))
    ∧ (∀ (f : Mat → Vec) (ps : List ℕ) (d2 : CondDist) (x : Mat),
      kind d2 = Kind.bernoulli →
      kl (.bernoulli f ps) d2 x Val.none = .error .attributeError)
    ∧ (∀ (mf sf : Mat → Mat) (ps : List ℕ) (d2 : CondDist) (x : Mat),
      kind d2 = Kind.gaussian →
      kl (.gaussian mf sf ps) d2 x Val.none = .error .attributeError) := by
  refine ⟨?_, ?_, ?_⟩
  · intro d1 d2 x smp v1 v2 hk h1 h2
    simp [kl, hk, h1, h2]
  · intro f ps d2 x hk
    have hcond : kind d2 = kind (CondDist.bernoulli f ps) := hk
    simp only [kl, if_pos hcond]
    simp [log_prob]
  · intro mf sf ps d2 x hk
    have hcond : kind d2 = kind (CondDist.gaussian mf sf ps) := hk
    simp only [kl, if_pos hcond]
    simp [log_prob, gauss_log_prob, asMat2]

/-- C2 witness: the supplied-sample path at a concrete input, and the crash
of the omitted-sample path at a concrete input. -/
theorem C2_kl_uses_supplied_sample_witness :
    kl halfBern halfBern [[0]] (.vec [1])
      = .ok (List.zipWith (fun p q => p - q) [Real.log (1 / 2)] [Real.log (1 / 2)])
    ∧ kl stdNormal meanOne [[0]] Val.none = .error .attributeError := by
  constructor
  · exact C2_kl_uses_supplied_sample.1 halfBern halfBern [[0]] (.vec [1])
      [Real.log (1 / 2)] [Real.log (1 / 2)] rfl
      (by simp [halfBern, log_prob, bern_log_prob, bernRow])
      (by simp [halfBern, log_prob, bern_log_prob, bernRow])
  · exact C2_kl_uses_supplied_sample.2.2 (fun x => x.map (fun _ => [0]))
      (fun x => x.map (fun _ => [1])) [] meanOne [[0]] rfl

/-! ### C3 -/

/-- C3 counterexample: for the two-column product of a Gaussian column
(parameter `0`) and a Bernoulli column (parameter `1`), the claim says
`r_params` is the union of the children's `r_params` (which is `[0]`) and
`s_params` the union of the children's `s_params` (which is `[1]`).  The
code instead returns all module parameters `[0, 1]` from `r_params` and the
empty list from `s_params`; in particular the Bernoulli parameter `1`
appears in `r_params` and not in `s_params`. -/
theorem C3_counterexample_params_not_union :
    r_params prodGB = [0, 1]
    ∧ s_params prodGB = []
    ∧ r_params gaussP ++ r_params bernP = [0]
    ∧ s_params gaussP ++ s_params bernP = [1]
    ∧ (1 : ℕ) ∈ r_params prodGB
    ∧ (1 : ℕ) ∉ s_params prodGB := by
  refine ⟨?_, rfl, rfl, rfl, ?_, ?_⟩
  · simp [prodGB, gaussP, bernP, r_params, parameters, parametersList]
  · simp [prodGB, gaussP, bernP, r_params, parameters, parametersList]
  · simp [prodGB, s_params]

/-- C3 (amended): `CondMatrixProductDistribution.r_params()` returns
`list(self.parameters())`, i.e. the concatenation of all child
distributions' parameters regardless of each child's own partition, and
`s_params()` returns the empty list; so a Bernoulli column's parameters land
in `r_params` and never in `s_params`. -/
theorem C3_matrix_product_params :
    ∀ ds : List CondDist,
      r_params (.matrixProduct ds) = flattenL (ds.map parameters)
      ∧ s_params (.matrixProduct ds) = [] := by
  intro ds
  constructor
  · simp only [r_params, parameters]
    exact parametersList_eq_flatten ds
  · rfl

/-! ### C5 -/

/-- C5 counterexample: the claim says `kl` raises ValueError if and only if
the runtime types differ.  Here both distributions are the same Bernoulli
variant, yet `kl` raises ValueError because the supplied sample is a rank-2
tensor and `CondBernoulliDistribution.log_prob` raises ValueError for any
non-rank-1 `y`; so a ValueError does not imply a family mismatch. -/
theorem C5_counterexample_valueerror_same_type :
    kind halfBern = kind halfBern
    ∧ kl halfBern halfBern [[0]] (.mat [[0]]) = .error .valueError := by
  constructor
  · rfl
  · simp [kl, kind, halfBern, log_prob]

/-- C5 (amended): whenever the runtime types of the two distributions
differ, `kl` raises ValueError before computing anything and without
attempting any coercion (this holds for every input and every sample);
ValueError is however not exclusive to the mismatch case, since with
matching types `log_prob` may itself raise ValueError for malformed
samples (see the counterexample). -/
theorem C5_kl_type_mismatch_valueerror :
    ∀ (d1 d2 : CondDist) (x : Mat) (smp : Val),
      kind d2 ≠ kind d1 → kl d1 d2 x smp = .error .valueError := by
  intro d1 d2 x smp h
  simp [kl, h]

/-- C5 witness: a Bernoulli/Gaussian pair at a concrete input. -/
theorem C5_kl_type_mismatch_valueerror_witness :
    kl halfBern stdNormal [[0]] (.vec [0]) = .error .valueError :=
  C5_kl_type_mismatch_valueerror halfBern stdNormal [[0]] (.vec [0]) (by decide)

/-! ### C6 -/

/-- C6: `CondSpikeSlabDistribution.log_prob` on a compact sample
`[n, support, nz_vls]` starts from the spike distribution's log probability
of the full support pattern; when no row is active it returns that alone,
and otherwise it adds the slab distribution's log probability of the active
rows' values (conditioned on exactly those rows of `x`) at exactly the
active positions: entry `i` of the result is the spike term plus, when
`support[i]` holds, the slab term for the rank of row `i` among the active
rows. -/
theorem C6_spike_slab_log_prob_additive :
    ∀ (dd : ℕ) (sp sl : CondDist) (x : Mat) (n : ℕ) (support : List Bool) (nz : Val)
      (spikeLL : Vec),
      log_prob sp x (.bvec support) = .ok spikeLL →
      ((support.any id = false →
        log_prob (.spikeSlab dd sp sl) x (.list [.vnat n, .bvec support, nz])
          = .ok spikeLL)
      ∧ (∀ slabLL : Vec,
        log_prob sl (maskSelect x support) nz = .ok slabLL →
        slabLL.length = countTrue support →
        ∃ w, log_prob (.spikeSlab dd sp sl) x (.list [.vnat n, .bvec support, nz])
            = .ok w
          ∧ w.length = spikeLL.length
          ∧ ∀ i, i < spikeLL.length →
              w.getD i 0 = spikeLL.getD i 0 +
                (if support.getD i false
                  then slabLL.getD (countTrue (support.take i)) 0 else 0))) := by
  intro dd sp sl x n support nz spikeLL hsp
  constructor
  · intro hany
    simp [log_prob, hsp, hany]
  · intro slabLL hsl hlen
    by_cases hany : support.any id
    · refine ⟨maskAdd spikeLL support slabLL, ?_, maskAdd_length spikeLL support slabLL, ?_⟩
      · simp [log_prob, hsp, hany, hsl, hlen]
      · intro i hi
        exact maskAdd_getD spikeLL support slabLL (le_of_eq hlen.symm) i hi
    · rw [Bool.not_eq_true] at hany
      refine ⟨spikeLL, by simp [log_prob, hsp, hany], rfl, ?_⟩
      intro i hi
      have hfalse : support.getD i false = false := by
        by_cases hib : i < support.length
        · have := List.any_eq_false.mp hany (support.getD i false)
            (by rw [List.getD_eq_getElem support false hib]; exact List.getElem_mem hib)
          simpa using this
        · exact List.getD_eq_default support false (le_of_not_lt hib)
      rw [hfalse]
      simp

/-- C6 witness: a two-row batch with the first row active, spike gate at
log probability log(1/2) and a standard-normal slab. -/
theorem C6_spike_slab_log_prob_additive_witness :
    ∃ w, log_prob (.spikeSlab 1 halfBern stdNormal) [[0], [1]]
        (.list [.vnat 2, .bvec [true, false], .mat [[0]]]) = .ok w
      ∧ w.length = 2
      ∧ ∀ i, i < 2 →
          w.getD i 0 = [Real.log (1 / 2), Real.log (1 - Real.exp (Real.log (1 / 2)))].getD i 0 +
            (if [true, false].getD i false
              then [-(1 / 2 * Real.log (2 * Real.pi))].getD (countTrue ([true, false].take i)) 0
              else 0) := by
  have h := (C6_spike_slab_log_prob_additive 1 halfBern stdNormal [[0], [1]] 2
    [true, false] (.mat [[0]])
    [Real.log (1 / 2), Real.log (1 - Real.exp (Real.log (1 / 2)))]
    (by simp [halfBern, log_prob, bern_log_prob, bernRow, boolVals])).2
    [-(1 / 2 * Real.log (2 * Real.pi))]
    (by simp [stdNormal, log_prob, gauss_log_prob, asMat2, gaussRow, maskSelect])
    (by simp)
  simpa using h

/-! ### C7 -/

/-- C7: for a two-column matrix product with a Gaussian first column and a
Bernoulli second column, `log_prob(x, [y1, y2])` computes each column's log
probability independently and sums them per row: the result is the
entrywise sum of the Gaussian column's and the Bernoulli column's log
probabilities. -/
theorem C7_matrix_product_two_column_log_prob :
    ∀ (mnf stdf : Mat → Mat) (psg : List ℕ) (fb : Mat → Vec) (psb : List ℕ)
      (x : Mat) (y1 y2 : Val) (v1 v2 : Vec),
      log_prob (.gaussian mnf stdf psg) x y1 = .ok v1 →
      log_prob (.bernoulli fb psb) x y2 = .ok v2 →
      v1.length = x.length → v2.length = x.length →
      log_prob (.matrixProduct [.gaussian mnf stdf psg, .bernoulli fb psb]) x
          (.list [y1, y2])
        = .ok (List.zipWith (fun a b => a + b) v1 v2)
      ∧ ∀ i, i < x.length →
          (List.zipWith (fun a b => a + b) v1 v2).getD i 0 = v1.getD i 0 + v2.getD i 0 := by
  intro mnf stdf psg fb psb x y1 y2 v1 v2 h1 h2 hl1 hl2
  constructor
  · have h1' := h1
    have h2' := h2
    simp only [log_prob] at h1' h2'
    simp [log_prob, colLogProbs, h1', h2', hl1, hl2]
  · intro i hi
    exact getD_zipWith (fun a b => a + b) 0 0 0 v1 v2 i (by omega) (by omega)

/-- C7 witness: one conditioning row, standard-normal Gaussian column at
sample 0 and log(1/2)-gate Bernoulli column at sample 1. -/
theorem C7_matrix_product_two_column_log_prob_witness :
    log_prob (.matrixProduct [.gaussian (fun x => x.map (fun _ => [0]))
        (fun x => x.map (fun _ => [1])) [], .bernoulli (fun x => x.map
        (fun _ => Real.log (1 / 2))) []]) [[0]] (.list [.mat [[0]], .vec [1]])
      = .ok (List.zipWith (fun a b => a + b) [-(1 / 2 * Real.log (2 * Real.pi))]
          [Real.log (1 / 2)])
    ∧ ∀ i, i < 1 →
        (List.zipWith (fun a b => a + b) [-(1 / 2 * Real.log (2 * Real.pi))]
          [Real.log (1 / 2)]).getD i 0
          = [-(1 / 2 * Real.log (2 * Real.pi))].getD i 0 + [Real.log (1 / 2)].getD i 0 :=
  C7_matrix_product_two_column_log_prob
    (fun x => x.map (fun _ => [0])) (fun x => x.map (fun _ => [1])) []
    (fun x => x.map (fun _ => Real.log (1 / 2))) [] [[0]]
    (.mat [[0]]) (.vec [1]) [-(1 / 2 * Real.log (2 * Real.pi))] [Real.log (1 / 2)]
    (by simp [log_prob, gauss_log_prob, asMat2, gaussRow])
    (by simp [log_prob, bern_log_prob, bernRow]) rfl rfl

/-! ### C8 -/

theorem getD_zip {α β : Type} (da : α) (db : β) (as : List α) (bs : List β) (i : ℕ)
    (h1 : i < as.length) (h2 : i < bs.length) :
    (as.zip bs).getD i (da, db) = (as.getD i da, bs.getD i db) :=
  getD_zipWith Prod.mk da db (da, db) as bs i h1 h2

theorem getD_mem {α : Type} : ∀ {l : List α} {d : α} {i : ℕ}, i < l.length →
    l.getD i d ∈ l
  | [], _, i, h => absurd h (by simp)
  | a :: l, _, 0, _ => List.mem_cons_self a l
  | a :: l, _, i + 1, h =>
    List.mem_cons.mpr (Or.inr (getD_mem (Nat.lt_of_succ_lt_succ h)))

theorem mapLength_eq_replicate {dy : ℕ} : ∀ (a : Mat), (∀ r ∈ a, r.length = dy) →
    a.map List.length = List.replicate a.length dy
  | [], _ => rfl
  | r :: a, h => by
    simp only [List.map_cons, List.length_cons, List.replicate_succ]
    rw [h r (List.mem_cons_self r a),
      mapLength_eq_replicate a (fun q hq => h q (List.mem_cons.mpr (Or.inr hq)))]

/-- The row formula of the Gaussian log density, rewritten as sums over the
column index. -/
theorem gaussRow_eq_sum (dy : ℕ) (yr mr sr : Vec)
    (h1 : yr.length = dy) (h2 : mr.length = dy) (h3 : sr.length = dy) :
    gaussRow dy yr mr sr
      = -(1 / 2) * (∑ j in Finset.range dy, ((yr.getD j 0 - mr.getD j 0) / sr.getD j 0) ^ 2)
        - (∑ j in Finset.range dy, Real.log (sr.getD j 0))
        - (1 / 2) * (dy : ℝ) * Real.log (2 * Real.pi) := by
  have hzip : (mr.zip sr).length = dy := by
    rw [List.length_zip, h2, h3, min_self]
  have hzw : (List.zipWith (fun a p => ((a - p.1) / p.2) ^ 2) yr (mr.zip sr)).length = dy := by
    rw [List.length_zipWith, h1, hzip, min_self]
  have hsum1 : (List.zipWith (fun a p => ((a - p.1) / p.2) ^ 2) yr (mr.zip sr)).sum
      = ∑ j in Finset.range dy, ((yr.getD j 0 - mr.getD j 0) / sr.getD j 0) ^ 2 := by
    rw [sum_eq_range_getD, hzw]
    refine Finset.sum_congr rfl ?_
    intro j hj
    have hjd := Finset.mem_range.mp hj
    rw [getD_zipWith (fun a p => ((a - p.1) / p.2) ^ 2) 0 (0, 0) 0 yr (mr.zip sr) j
      (by omega) (by omega), getD_zip 0 0 mr sr j (by omega) (by omega)]
  have hmap : (sr.map Real.log).length = dy := by rw [List.length_map, h3]
  have hsum2 : (sr.map Real.log).sum = ∑ j in Finset.range dy, Real.log (sr.getD j 0) := by
    rw [sum_eq_range_getD, hmap]
    refine Finset.sum_congr rfl ?_
    intro j hj
    exact getD_mapL Real.log 0 0 sr j (by rw [h3]; exact Finset.mem_range.mp hj)
  rw [gaussRow, hsum1, hsum2]

/-- C8: `CondGaussianDistribution.log_prob` promotes a rank-1 sample to a
single-column matrix, and on a rank-2 sample whose rows (and the rows of
`mn_f(x)` and `std_f(x)`) have width `d_y`, row `i` of the result is
`-(1/2) Σ_j ((y_ij - mn_ij)/std_ij)² - Σ_j log std_ij - (d_y/2) log(2π)`. -/
theorem C8_gaussian_log_prob :
    (∀ (mnf stdf : Mat → Mat) (ps : List ℕ) (x : Mat) (w : Vec),
      log_prob (.gaussian mnf stdf ps) x (.vec w)
        = log_prob (.gaussian mnf stdf ps) x (.mat (w.map (fun a => [a]))))
    ∧ (∀ (mnf stdf : Mat → Mat) (ps : List ℕ) (x : Mat) (ym : Mat) (dy : ℕ),
      (∀ r ∈ ym, r.length = dy) →
      (∀ r ∈ mnf x, r.length = dy) →
      (∀ r ∈ stdf x, r.length = dy) →
      ym.length = (mnf x).length →
      (mnf x).length = (stdf x).length →
      ∃ v, log_prob (.gaussian mnf stdf ps) x (.mat ym) = .ok v
        ∧ v.length = ym.length
        ∧ ∀ i, i < ym.length →
            v.getD i 0 =
              -(1 / 2) * (∑ j in Finset.range dy,
                  (((ym.getD i []).getD j 0 - ((mnf x).getD i []).getD j 0)
                    / ((stdf x).getD i []).getD j 0) ^ 2)
              - (∑ j in Finset.range dy, Real.log (((stdf x).getD i []).getD j 0))
              - (1 / 2) * (dy : ℝ) * Real.log (2 * Real.pi)) := by
  constructor
  · intro mnf stdf ps x w
    simp [log_prob, gauss_log_prob, asMat2]
  · intro mnf stdf ps x ym dy hy hm hs hlen1 hlen2
    have hcond : ym.map List.length = (mnf x).map List.length
        ∧ (mnf x).map List.length = (stdf x).map List.length := by
      rw [mapLength_eq_replicate ym hy, mapLength_eq_replicate (mnf x) hm,
        mapLength_eq_replicate (stdf x) hs, hlen1, hlen2]
      exact ⟨rfl, rfl⟩
    have hzipl : ((mnf x).zip (stdf x)).length = ym.length := by
      rw [List.length_zip, ← hlen1, ← hlen2, ← hlen1, min_self]
    refine ⟨List.zipWith
        (fun yr p => gaussRow (ym.headD []).length yr p.1 p.2) ym ((mnf x).zip (stdf x)),
      ?_, ?_, ?_⟩
    · simp only [log_prob, gauss_log_prob, asMat2]
      rw [if_pos hcond]
    · rw [List.length_zipWith, hzipl, min_self]
    · intro i hi
      rw [getD_zipWith (fun yr p => gaussRow (ym.headD []).length yr p.1 p.2)
        [] ([], []) 0 ym ((mnf x).zip (stdf x)) i hi (by omega),
        getD_zip [] [] (mnf x) (stdf x) i (by omega) (by omega)]
      have hhead : (ym.headD []).length = dy := by
        cases ym with
        | nil => simp at hi
        | cons r a => exact hy r (List.mem_cons_self r a)
      rw [hhead]
      exact gaussRow_eq_sum dy (ym.getD i []) ((mnf x).getD i []) ((stdf x).getD i [])
        (hy _ (getD_mem hi)) (hm _ (getD_mem (by omega))) (hs _ (getD_mem (by omega)))

/-- C8 witness: standard normal (mean 0, std 1, one output column) at the
sample `y = 0`: the log density is `-(1/2) log(2π)`, and the rank-1 sample
`[0]` is promoted to the single-column matrix `[[0]]`. -/
theorem C8_gaussian_log_prob_witness :
    log_prob stdNormal [[0]] (.mat [[0]]) = .ok [-(1 / 2) * Real.log (2 * Real.pi)]
    ∧ log_prob stdNormal [[0]] (.vec [0]) = log_prob stdNormal [[0]] (.mat [[0]]) := by
  constructor
  · obtain ⟨v, hv, hl, hval⟩ := C8_gaussian_log_prob.2
      (fun x => x.map (fun _ => [0])) (fun x => x.map (fun _ => [1])) [] [[0]] [[0]] 1
      (by simp) (by simp) (by simp) (by simp) (by simp)
    obtain ⟨a, rfl⟩ := List.length_eq_one.mp (by simpa using hl)
    have hv' : log_prob stdNormal [[0]] (.mat [[0]]) = .ok [a] := hv
    have hv0 := hval 0 (by norm_num)
    simp [Finset.sum_range_one] at hv0
    rw [hv', hv0]
    norm_num
  · exact C8_gaussian_log_prob.1 (fun x => x.map (fun _ => [0]))
      (fun x => x.map (fun _ => [1])) [] [[0]] [0]

/-! ### C9 -/

/-- C9: `CondBernoulliDistribution.log_prob` raises ValueError whenever the
sample is a tensor of rank other than 1 (shown for rank-2 tensors); on a
rank-1 sample of the batch length it returns, per row, the gate output
where the sample entry is non-zero and `log(1 - exp(gate))` where the entry
is zero. -/
theorem C9_bernoulli_log_prob :
    (∀ (f : Mat → Vec) (ps : List ℕ) (x : Mat) (m : Mat),
      log_prob (.bernoulli f ps) x (.mat m) = .error .valueError)
    ∧ (∀ (f : Mat → Vec) (ps : List ℕ) (x : Mat) (v : Vec),
      v.length = x.length → (f x).length = x.length →
      ∃ w, log_prob (.bernoulli f ps) x (.vec v) = .ok w
        ∧ w.length = x.length
        ∧ ∀ i, i < x.length →
            w.getD i 0 = if v.getD i 0 = 0
              then Real.log (1 - Real.exp ((f x).getD i 0))
              else (f x).getD i 0) := by
  constructor
  · intro f ps x m
    simp [log_prob]
  · intro f ps x v hv hf
    refine ⟨List.zipWith bernRow (f x) v, by simp [log_prob, bern_log_prob, hv, hf], ?_, ?_⟩
    · rw [List.length_zipWith, hv, hf]
      exact min_self _
    · intro i hi
      rw [getD_zipWith bernRow 0 0 0 (f x) v i (by omega) (by omega)]
      rfl

/-- C9 witness: the boundary case from the claim — a gate that always
reports log(1/2) and an all-zero sample over two rows gives log(1/2) in
every entry, since `log(1 - exp(log(1/2))) = log(1/2)`. -/
theorem C9_bernoulli_log_prob_witness :
    ∃ w, log_prob halfBern [[0], [1]] (.vec [0, 0]) = .ok w
      ∧ w.length = 2
      ∧ ∀ i, i < 2 → w.getD i 0 = Real.log (1 / 2) := by
  obtain ⟨w, hw, hl, hval⟩ := C9_bernoulli_log_prob.2
    (fun x => x.map (fun _ => Real.log (1 / 2))) [] [[0], [1]] [0, 0]
    (by simp) (by simp)
  refine ⟨w, hw, by simpa using hl, ?_⟩
  intro i hi
  rw [hval i (by simpa using hi)]
  have hz : ([0, 0] : Vec).getD i 0 = 0 := by
    interval_cases i <;> rfl
  have hg : (List.map (fun _ => Real.log (1 / 2)) ([[0], [1]] : Mat)).getD i 0
      = Real.log (1 / 2) := by
    interval_cases i <;> rfl
  rw [hz, hg, if_pos rfl, Real.exp_log (by norm_num)]
  norm_num

/-! ### C10 -/

/-- C10: when the drawn support pattern has no active rows,
`CondSpikeSlabDistribution.sample` returns the compact list
`[n_smps, support, None]` without consuming the slab draw (the result is
the same for every slab draw `wsl`), and `form_standard_sample` on a
compact sample whose `nz_vls` is `None` returns the all-zero `n × d`
matrix, whatever the support field holds. -/
theorem C10_spike_slab_degenerate_support :
    (∀ (dd : ℕ) (sp sl : CondDist) (x : Mat) (wsp wsl : Val) (spSmp : Val)
      (s : List Bool),
      sample sp x wsp = .ok spSmp →
      form_standard sp spSmp = .ok (.bvec s) →
      s.length = x.length →
      s.any id = false →
      sample (.spikeSlab dd sp sl) x (.list [wsp, wsl])
        = .ok (.list [.vnat x.length, .bvec s, Val.none]))
    ∧ (∀ (dd : ℕ) (sp sl : CondDist) (n : ℕ) (supV : Val),
      form_standard (.spikeSlab dd sp sl) (.list [.vnat n, supV, Val.none])
        = .ok (.mat (List.replicate n (List.replicate dd 0)))) := by
  constructor
  · intro dd sp sl x wsp wsl spSmp s h1 h2 hlen hany
    simp only [sample, h1, h2, exc_bind_ok]
    rw [if_pos hlen, if_neg (by simp [hany])]
  · intro dd sp sl n supV
    simp [form_standard]

/-- C10 witness: a one-row batch whose spike draw is inactive; the slab
draw slot is filled with the junk value `7`, which is never consumed, and
the standard form of the degenerate compact sample is the zero matrix. -/
theorem C10_spike_slab_degenerate_support_witness :
    sample (.spikeSlab 2 halfBern stdNormal) [[0]] (.list [.bvec [false], .vnat 7])
      = .ok (.list [.vnat 1, .bvec [false], Val.none])
    ∧ form_standard (.spikeSlab 2 halfBern stdNormal)
        (.list [.vnat 1, .bvec [false], Val.none]) = .ok (.mat [[0, 0]]) := by
  constructor
  · have h := C10_spike_slab_degenerate_support.1 2 halfBern stdNormal [[0]]
      (.bvec [false]) (.vnat 7) (.bvec [false]) [false]
      (by simp [halfBern, sample]) rfl rfl rfl
    simpa using h
  · have h := C10_spike_slab_degenerate_support.2 2 halfBern stdNormal 1 (.bvec [false])
    simpa using h

/-! ### C4 helper lemmas -/

theorem zip_self_map {α β : Type} (f : α → β) :
    ∀ l : List α, l.zip (l.map f) = l.map (fun a => (a, f a))
  | [] => rfl
  | a :: l => by simp only [List.map_cons, List.zip_cons_cons, zip_self_map f l]

theorem listExt_getD {α : Type} (dflt : α) : ∀ (l1 l2 : List α),
    l1.length = l2.length → (∀ i, i < l1.length → l1.getD i dflt = l2.getD i dflt) →
    l1 = l2
  | [], [], _, _ => rfl
  | a :: l1, b :: l2, hl, h => by
    have h0 := h 0 (by simp)
    simp only [List.getD_cons_zero] at h0
    rw [h0, listExt_getD dflt l1 l2 (Nat.succ_injective hl)
      (fun i hi => h (i + 1) (by simpa using Nat.succ_lt_succ hi))]

theorem row_expand : ∀ (r : Vec),
    flattenL ((List.range r.length).map (fun c => [r.getD c 0])) = r
  | [] => rfl
  | a :: t => by
    rw [List.length_cons, List.range_succ_eq_map, List.map_cons, List.map_map]
    simp only [Function.comp_def, Nat.succ_eq_add_one, List.getD_cons_succ,
      List.getD_cons_zero, flattenL_cons]
    rw [row_expand t]
    rfl

theorem foldl_hcat_length : ∀ (cs : List Mat) (c0 : Mat),
    (∀ mm ∈ cs, mm.length = c0.length) →
    (cs.foldl (fun acc mm => List.zipWith (fun r q => r ++ q) acc mm) c0).length
      = c0.length
  | [], _, _ => rfl
  | c :: cs, c0, h => by
    rw [List.foldl_cons]
    have hz : (List.zipWith (fun r q => r ++ q) c0 c).length = c0.length := by
      rw [List.length_zipWith, h c (List.mem_cons_self c cs), min_self]
    rw [foldl_hcat_length cs (List.zipWith (fun r q => r ++ q) c0 c)
      (fun mm hm => by rw [h mm (List.mem_cons.mpr (Or.inr hm)), hz]), hz]

theorem foldl_hcat_getD : ∀ (cs : List Mat) (c0 : Mat),
    (∀ mm ∈ cs, mm.length = c0.length) → ∀ i, i < c0.length →
    (cs.foldl (fun acc mm => List.zipWith (fun r q => r ++ q) acc mm) c0).getD i []
      = c0.getD i [] ++ flattenL (cs.map (fun mm => mm.getD i []))
  | [], c0, _, i, _ => by simp [flattenL]
  | c :: cs, c0, h, i, hi => by
    rw [List.foldl_cons]
    have hz : (List.zipWith (fun r q => r ++ q) c0 c).length = c0.length := by
      rw [List.length_zipWith, h c (List.mem_cons_self c cs), min_self]
    rw [foldl_hcat_getD cs (List.zipWith (fun r q => r ++ q) c0 c)
      (fun mm hm => by rw [h mm (List.mem_cons.mpr (Or.inr hm)), hz]) i (by omega),
      getD_zipWith (fun r q => r ++ q) [] [] [] c0 c i hi
        (by rw [h c (List.mem_cons_self c cs)]; exact hi),
      List.map_cons, flattenL_cons, List.append_assoc]

theorem allMats_map : ∀ ms : List Mat, allMats (ms.map Val.mat) = some ms
  | [] => rfl
  | m :: ms => by simp [allMats, allMats_map ms]

/-- A distribution whose `form_standard_sample` is the identity (Bernoulli
and Gaussian variants). -/
def idStandard (D : CondDist) : Prop := ∀ v, form_standard D v = .ok v

theorem idStandard_of_kind : ∀ d : CondDist,
    kind d = Kind.bernoulli ∨ kind d = Kind.gaussian → idStandard d
  | .bernoulli f ps, _ => fun v => by simp [form_standard]
  | .gaussian mf sf ps, _ => fun v => by simp [form_standard]
  | .spikeSlab _ _ _, h => by simp [kind] at h
  | .matrixProduct _, h => by simp [kind] at h

theorem formStdCols_id : ∀ (ds : List CondDist) (cols : List Val),
    (∀ d ∈ ds, idStandard d) →
    formStdCols ds cols = .ok (cols.take ds.length)
  | _, [], _ => by simp [formStdCols]
  | [], c :: cols, _ => by simp [formStdCols]
  | d :: ds, c :: cols, h => by
    simp only [formStdCols, h d (List.mem_cons_self d ds) c, exc_bind_ok,
      formStdCols_id ds cols (fun q hq => h q (List.mem_cons.mpr (Or.inr hq)))]
    rfl

theorem mem_scatterRows (d : ℕ) : ∀ (s : List Bool) (m : Mat) (r : Vec),
    r ∈ scatterRows d s m → r = List.replicate d 0 ∨ r ∈ m
  | [], _, r, h => by simp at h
  | true :: s, [], r, h => by
    rcases List.mem_cons.mp h with h1 | h2
    · exact Or.inl h1
    · rcases mem_scatterRows d s [] r h2 with h3 | h3
      · exact Or.inl h3
      · simp at h3
  | true :: s, q :: m, r, h => by
    rcases List.mem_cons.mp h with h1 | h2
    · exact Or.inr (h1 ▸ List.mem_cons_self q m)
    · rcases mem_scatterRows d s m r h2 with h3 | h3
      · exact Or.inl h3
      · exact Or.inr (List.mem_cons.mpr (Or.inr h3))
  | false :: s, m, r, h => by
    rcases List.mem_cons.mp h with h1 | h2
    · exact Or.inl h1
    · exact mem_scatterRows d s m r h2

/-- Round trip for the spike-and-slab variant on matrices each of whose rows
is all-zero or all-nonzero. -/
theorem spikeSlab_compact_standard (dd : ℕ) (sp sl : CondDist) (s : Mat)
    (hd : 1 < dd)
    (hlen : ∀ r ∈ s, r.length = dd)
    (hrows : ∀ r ∈ s, (∀ a ∈ r, a = 0) ∨ (∀ a ∈ r, a ≠ 0)) :
    ∃ c, form_compact (.spikeSlab dd sp sl) (.mat s) = .ok c
      ∧ form_standard (.spikeSlab dd sp sl) c = .ok (.mat s) := by
  have hzero : ∀ r ∈ s,
      decide (r.countP (fun a => decide (a ≠ 0)) = dd) = false →
      r = List.replicate dd 0 := by
    intro r hr hfalse
    rw [decide_eq_false_iff_not] at hfalse
    rcases hrows r hr with hz | hnz
    · exact List.eq_replicate_iff.mpr ⟨hlen r hr, hz⟩
    · exfalso
      apply hfalse
      rw [← hlen r hr]
      exact List.countP_eq_length.mpr (fun a ha => by simpa using hnz a ha)
  by_cases hany :
      (s.map (fun r => decide (r.countP (fun a => decide (a ≠ 0)) = dd))).any id = true
  · refine ⟨.list [.vnat s.length,
      .bvec (s.map (fun r => decide (r.countP (fun a => decide (a ≠ 0)) = dd))),
      .mat (maskSelect s (s.map (fun r => decide (r.countP (fun a => decide (a ≠ 0)) = dd))))],
      ?_, ?_⟩
    · simp only [form_compact]
      rw [if_pos hd, if_pos hany]
    · have hchecks :
        (s.map (fun r => decide (r.countP (fun a => decide (a ≠ 0)) = dd))).length = s.length
        ∧ (maskSelect s (s.map (fun r =>
            decide (r.countP (fun a => decide (a ≠ 0)) = dd)))).length
          = countTrue (s.map (fun r => decide (r.countP (fun a => decide (a ≠ 0)) = dd)))
        ∧ (maskSelect s (s.map (fun r =>
            decide (r.countP (fun a => decide (a ≠ 0)) = dd)))).all
            (fun r => decide (r.length = dd)) = true := by
        refine ⟨by rw [List.length_map], ?_, ?_⟩
        · exact maskSelect_length s _ (by rw [List.length_map])
        · rw [List.all_eq_true]
          intro r hr
          exact decide_eq_true (hlen r (mem_maskSelect hr))
      have hscatter :
          scatterRows dd (s.map (fun r => decide (r.countP (fun a => decide (a ≠ 0)) = dd)))
            (maskSelect s (s.map (fun r => decide (r.countP (fun a => decide (a ≠ 0)) = dd))))
          = s := by
        refine scatterRows_maskSelect dd _ s (by rw [List.length_map]) ?_
        intro p hp hfalse
        rw [zip_self_map (fun r => decide (r.countP (fun a => decide (a ≠ 0)) = dd)) s] at hp
        obtain ⟨r, hr, rfl⟩ := List.mem_map.mp hp
        exact hzero r hr hfalse
      simp only [form_standard]
      rw [if_pos hchecks, hscatter]
  · refine ⟨.list [.vnat s.length,
      .bvec (s.map (fun r => decide (r.countP (fun a => decide (a ≠ 0)) = dd))),
      Val.none], ?_, ?_⟩
    · simp only [form_compact]
      rw [if_pos hd, if_neg hany]
    · have hall : ∀ r ∈ s, r = List.replicate dd 0 := by
        rw [Bool.not_eq_true, List.any_eq_false] at hany
        intro r hr
        apply hzero r hr
        have := hany (decide (r.countP (fun a => decide (a ≠ 0)) = dd))
          (List.mem_map_of_mem _ hr)
        simpa using this
      have hs : s = List.replicate s.length (List.replicate dd 0) :=
        List.eq_replicate_iff.mpr ⟨rfl, hall⟩
      simp only [form_standard]
      exact congrArg (fun t => Except.ok (Val.mat t)) hs.symm

theorem columnOf_length (m : Mat) (c : ℕ) : (columnOf m c).length = m.length := by
  simp [columnOf]

theorem columnOf_getD (m : Mat) (c : ℕ) (i : ℕ) (hi : i < m.length) :
    (columnOf m c).getD i [] = [(m.getD i []).getD c 0] := by
  simp only [columnOf]
  exact getD_mapL (fun r => [r.getD c 0]) [] [] m i hi

/-- Splitting a rectangular matrix into its `n × 1` columns and
concatenating them along dim 1 recovers the matrix. -/
theorem hcat_columns (s : Mat) (k : ℕ) (hrow : ∀ r ∈ s, r.length = k) :
    ∀ (m0 : Mat) (ms : List Mat),
    m0 :: ms = (List.range k).map (fun c => columnOf s c) →
    ms.foldl (fun acc mm => List.zipWith (fun r q => r ++ q) acc mm) m0 = s := by
  intro m0 ms hcols
  have hmem : ∀ mm ∈ m0 :: ms, mm.length = s.length := by
    intro mm hm
    rw [hcols] at hm
    obtain ⟨c, _, rfl⟩ := List.mem_map.mp hm
    exact columnOf_length s c
  have hm0 : m0.length = s.length := hmem m0 (List.mem_cons_self m0 ms)
  have hms : ∀ mm ∈ ms, mm.length = m0.length := by
    intro mm hm
    rw [hmem mm (List.mem_cons.mpr (Or.inr hm)), hm0]
  refine listExt_getD [] _ s ?_ ?_
  · rw [foldl_hcat_length ms m0 hms, hm0]
  · intro i hi
    have hi' : i < m0.length := by rwa [foldl_hcat_length ms m0 hms] at hi
    have his : i < s.length := by rw [← hm0]; exact hi'
    rw [foldl_hcat_getD ms m0 hms i hi', ← flattenL_cons]
    show flattenL (List.map (fun mm => mm.getD i []) (m0 :: ms)) = _
    rw [hcols, List.map_map,
      List.map_congr_left (fun c _ => by
        simp only [Function.comp_def]
        exact columnOf_getD s c i his)]
    have hr : (s.getD i []).length = k := hrow _ (getD_mem his)
    rw [← hr, row_expand]

/-- Round trip for the matrix-product variant with identity-conversion
columns on non-empty rectangular matrices. -/
theorem mp_compact_standard (ds : List CondDist) (s : Mat) (k : ℕ)
    (hid : ∀ d ∈ ds, idStandard d)
    (hne : s ≠ [])
    (hrow : ∀ r ∈ s, r.length = k)
    (hdk : ds.length = k) (hk1 : 1 ≤ k) :
    ∃ c, form_compact (.matrixProduct ds) (.mat s) = .ok c
      ∧ form_standard (.matrixProduct ds) c = .ok (.mat s) := by
  have hhead : (s.headD []).length = k := by
    cases s with
    | nil => exact absurd rfl hne
    | cons r t => exact hrow r (List.mem_cons_self r t)
  have hclen : ((List.range k).map (fun c => Val.mat (columnOf s c))).length = k := by
    simp
  have htake : ((List.range k).map (fun c => Val.mat (columnOf s c))).take ds.length
      = (List.range k).map (fun c => Val.mat (columnOf s c)) := by
    rw [hdk]
    exact List.take_of_length_le (le_of_eq hclen)
  obtain ⟨m0, ms, hcols⟩ : ∃ m0 ms,
      (List.range k).map (fun c => columnOf s c) = m0 :: ms := by
    cases hk : (List.range k).map (fun c => columnOf s c) with
    | nil =>
      exfalso
      have := congrArg List.length hk
      simp at this
      omega
    | cons a b => exact ⟨a, b, rfl⟩
  have hall : allMats ((List.range k).map (fun c => Val.mat (columnOf s c)))
      = some (m0 :: ms) := by
    rw [show (List.range k).map (fun c => Val.mat (columnOf s c))
        = ((List.range k).map (fun c => columnOf s c)).map Val.mat from by
      rw [List.map_map]; rfl]
    rw [allMats_map, hcols]
  have hmem : ∀ mm ∈ m0 :: ms, mm.length = s.length := by
    intro mm hm
    rw [← hcols] at hm
    obtain ⟨c, _, rfl⟩ := List.mem_map.mp hm
    exact columnOf_length s c
  have hcond : (m0 :: ms).all (fun mm => decide (mm.length = m0.length)) = true := by
    rw [List.all_eq_true]
    intro mm hm
    rw [hmem mm hm, ← hmem m0 (List.mem_cons_self m0 ms)]
    exact decide_eq_true rfl
  refine ⟨.list ((List.range k).map (fun c => Val.mat (columnOf s c))), ?_, ?_⟩
  · simp only [form_compact]
    rw [hhead, formStdCols_id ds _ hid, htake]
    rfl
  · simp only [form_standard]
    rw [formStdCols_id ds _ hid, htake]
    simp only [exc_bind_ok, hall]
    rw [if_pos hcond, hcat_columns s k hrow m0 ms hcols.symm]

/-- Variants whose conversions are both the identity satisfy the sampling
round-trip chain unconditionally. -/
theorem chain_id (D : CondDist) (hD : idStandard D)
    (hC : ∀ v, form_compact D v = .ok v) :
    ∀ (x : Mat) (w : Val), chainStd D x w = standardOfSample D x w := by
  intro x w
  simp only [chainStd, standardOfSample]
  cases hs : sample D x w with
  | error e => rfl
  | ok y => simp [hD y, hC y]

/-- The sampling round-trip chain for the spike-and-slab variant, given a
slab draw that is a matrix of `d`-wide nowhere-zero rows (or absent). -/
theorem spikeSlab_chain (dd : ℕ) (sp sl : CondDist) (x : Mat) (w : Val)
    (n : ℕ) (support : List Bool) (nz : Val) (hd : 1 < dd)
    (hsmp : sample (.spikeSlab dd sp sl) x w = .ok (.list [.vnat n, .bvec support, nz]))
    (hnz : nz = Val.none
      ∨ ∃ m : Mat, nz = .mat m ∧ ∀ r ∈ m, r.length = dd ∧ ∀ a ∈ r, a ≠ 0) :
    chainStd (.spikeSlab dd sp sl) x w = standardOfSample (.spikeSlab dd sp sl) x w := by
  simp only [chainStd, standardOfSample, hsmp, exc_bind_ok]
  rcases hnz with rfl | ⟨m, rfl, hm⟩
  · simp only [form_standard, exc_bind_ok]
    obtain ⟨c2, hc2, hs2⟩ := spikeSlab_compact_standard dd sp sl
      (List.replicate n (List.replicate dd 0)) hd
      (fun r hr => by rw [List.eq_of_mem_replicate hr]; simp)
      (fun r hr => Or.inl (fun a ha => by
        rw [List.eq_of_mem_replicate hr] at ha
        exact List.eq_of_mem_replicate ha))
    rw [hc2]
    exact hs2
  · simp only [form_standard]
    by_cases hch : support.length = n ∧ m.length = countTrue support
        ∧ m.all (fun r => decide (r.length = dd)) = true
    · rw [if_pos hch]
      simp only [exc_bind_ok]
      obtain ⟨c2, hc2, hs2⟩ := spikeSlab_compact_standard dd sp sl
        (scatterRows dd support m) hd
        (fun r hr => by
          rcases mem_scatterRows dd support m r hr with rfl | hrm
          · simp
          · exact (hm r hrm).1)
        (fun r hr => by
          rcases mem_scatterRows dd support m r hr with rfl | hrm
          · exact Or.inl (fun a ha => List.eq_of_mem_replicate ha)
          · exact Or.inr (hm r hrm).2)
      rw [hc2]
      exact hs2
    · rw [if_neg hch]
      rfl

/-- The sampling round-trip chain for a matrix product whose standard form
is a non-empty rectangular matrix and whose columns convert by identity. -/
theorem mp_chain (ds : List CondDist) (x : Mat) (w : Val) (y : Val) (s : Mat) (k : ℕ)
    (hs1 : sample (.matrixProduct ds) x w = .ok y)
    (hs2 : form_standard (.matrixProduct ds) y = .ok (.mat s))
    (hid : ∀ d ∈ ds, kind d = Kind.bernoulli ∨ kind d = Kind.gaussian)
    (hne : s ≠ []) (hrow : ∀ r ∈ s, r.length = k) (hdk : ds.length = k)
    (hk1 : 1 ≤ k) :
    chainStd (.matrixProduct ds) x w = standardOfSample (.matrixProduct ds) x w := by
  obtain ⟨c2, hc2, hstd2⟩ := mp_compact_standard ds s k
    (fun d hd => idStandard_of_kind d (hid d hd)) hne hrow hdk hk1
  simp only [chainStd, standardOfSample, hs1, hs2, hc2, exc_bind_ok]
  exact hstd2

/-- When a matrix product mixes a Gaussian column (rank-2 samples) with a
Bernoulli column (rank-1 samples), `form_standard_sample(sample(x))` always
fails: `torch.cat(.., dim=1)` cannot concatenate tensors of different
ranks. -/
theorem mp_bern_column_standard_fails (mf sf : Mat → Mat) (psg : List ℕ)
    (fb : Mat → Vec) (psb : List ℕ) (x : Mat) (zw : Mat) (bw : List Bool) (y : Val)
    (h : sample (.matrixProduct [.gaussian mf sf psg, .bernoulli fb psb]) x
      (.list [.mat zw, .bvec bw]) = .ok y) :
    standardOfSample (.matrixProduct [.gaussian mf sf psg, .bernoulli fb psb]) x
      (.list [.mat zw, .bvec bw]) = .error .runtimeError := by
  simp only [standardOfSample, sample, sampleCols, gauss_sample] at h ⊢
  by_cases hg : zw.map List.length = (sf x).map List.length
      ∧ (mf x).map List.length = (sf x).map List.length
  · rw [if_pos hg] at h ⊢
    by_cases hb : bw.length = x.length
    · rw [if_pos hb] at h ⊢
      simp only [exc_bind_ok]
      simp [form_standard, formStdCols, allMats]
    · rw [if_neg hb] at h
      simp at h
  · rw [if_neg hg] at h
    simp at h

/-- A two-output-column Gaussian slab with mean 0 and standard deviation 1
everywhere, no registered parameters. -/
def slabTwoCol : CondDist :=
  .gaussian (fun x => x.map (fun _ => [0, 0])) (fun x => x.map (fun _ => [1, 1])) []

/-- A spike-and-slab distribution over `d = 2` variables with a
`log(1/2)`-gate Bernoulli spike and a standard-normal two-column slab. -/
def spikeSlabTwo : CondDist := .spikeSlab 2 halfBern slabTwoCol

/-! ### C4 -/

/-- C4 counterexample: the matrix `[[1, 0]]` is a standard sample the
spike-and-slab instance really produces (shown by evaluating the sampling
pipeline at the draws `support = [1]`, `z = [[1, 0]]`), yet
`form_standard_sample(form_compact_sample([[1, 0]]))` is `[[0, 0]] ≠
[[1, 0]]`: `form_compact_sample` only treats a row as active when all `d`
of its entries are non-zero, so a row with some-but-not-all zero entries is
dropped. -/
theorem C4_counterexample_mixed_row_not_round_trip :
    standardOfSample spikeSlabTwo [[5]] (.list [.bvec [true], .mat [[1, 0]]])
      = .ok (.mat [[1, 0]])
    ∧ form_compact spikeSlabTwo (.mat [[1, 0]])
      = .ok (.list [.vnat 1, .bvec [false], Val.none])
    ∧ form_standard spikeSlabTwo (.list [.vnat 1, .bvec [false], Val.none])
      = .ok (.mat [[0, 0]])
    ∧ Val.mat [[0, 0]] ≠ Val.mat [[1, 0]] := by
  refine ⟨?_, ?_, ?_, ?_⟩
  · simp [standardOfSample, spikeSlabTwo, halfBern, slabTwoCol, sample, form_standard,
      gauss_sample, matZipWith, maskSelect, countTrue]
  · simp [form_compact, spikeSlabTwo, List.countP_cons, maskSelect]
  · simp [form_standard, spikeSlabTwo]
  · simp

/-- C4 (amended): the compact/standard conversions round-trip with the
following provisos forced by the counterexample.  (1, 2) For Bernoulli and
Gaussian both conversions are the identity, so the round trip is trivial.
(3) For spike-and-slab (`d ≥ 2`), `form_standard(form_compact(s)) = s`
exactly on matrices each of whose rows is all-zero or all-nonzero — mixed
rows are collapsed to zero (the counterexample).  (4) For a matrix product
of Bernoulli/Gaussian columns on a non-empty rectangular matrix the round
trip holds, with each column's conversion delegated to that column's
`form_standard_sample` (the source calls `form_standard_sample`, not
`form_compact_sample`, in `form_compact_sample`; for these columns both are
the identity).  (5-8) The sampling chain
`form_standard(form_compact(form_standard(sample(x))))` equals
`form_standard(sample(x))`: unconditionally for Bernoulli and Gaussian; for
spike-and-slab whenever the slab draw is absent or a matrix of `d`-wide
nowhere-zero rows; for a matrix product of Bernoulli/Gaussian columns
whenever `form_standard(sample(x))` succeeds as a non-empty rectangular
matrix.  (9) For a matrix product mixing a Gaussian with a Bernoulli
column, `form_standard_sample(sample(x))` itself always fails, because
`torch.cat(.., dim=1)` refuses to concatenate the Bernoulli column's rank-1
sample with the Gaussian column's rank-2 sample. -/
theorem C4_round_trip_conversions :
    (∀ (f : Mat → Vec) (ps : List ℕ) (v : Val),
      form_compact (.bernoulli f ps) v = .ok v
      ∧ form_standard (.bernoulli f ps) v = .ok v)
    ∧ (∀ (mf sf : Mat → Mat) (ps : List ℕ) (v : Val),
      form_compact (.gaussian mf sf ps) v = .ok v
      ∧ form_standard (.gaussian mf sf ps) v = .ok v)
    ∧ (∀ (dd : ℕ) (sp sl : CondDist) (s : Mat), 1 < dd →
      (∀ r ∈ s, r.length = dd) →
      (∀ r ∈ s, (∀ a ∈ r, a = 0) ∨ (∀ a ∈ r, a ≠ 0)) →
      ∃ c, form_compact (.spikeSlab dd sp sl) (.mat s) = .ok c
        ∧ form_standard (.spikeSlab dd sp sl) c = .ok (.mat s))
    ∧ (∀ (ds : List CondDist) (s : Mat) (k : ℕ),
      (∀ d ∈ ds, kind d = Kind.bernoulli ∨ kind d = Kind.gaussian) →
      s ≠ [] → (∀ r ∈ s, r.length = k) → ds.length = k → 1 ≤ k →
      ∃ c, form_compact (.matrixProduct ds) (.mat s) = .ok c
        ∧ form_standard (.matrixProduct ds) c = .ok (.mat s))
    ∧ (∀ (f : Mat → Vec) (ps : List ℕ) (x : Mat) (w : Val),
      chainStd (.bernoulli f ps) x w = standardOfSample (.bernoulli f ps) x w)
    ∧ (∀ (mf sf : Mat → Mat) (ps : List ℕ) (x : Mat) (w : Val),
      chainStd (.gaussian mf sf ps) x w = standardOfSample (.gaussian mf sf ps) x w)
    ∧ (∀ (dd : ℕ) (sp sl : CondDist) (x : Mat) (w : Val) (n : ℕ)
        (support : List Bool) (nz : Val), 1 < dd →
      sample (.spikeSlab dd sp sl) x w = .ok (.list [.vnat n, .bvec support, nz]) →
      (nz = Val.none
        ∨ ∃ m : Mat, nz = .mat m ∧ ∀ r ∈ m, r.length = dd ∧ ∀ a ∈ r, a ≠ 0) →
      chainStd (.spikeSlab dd sp sl) x w = standardOfSample (.spikeSlab dd sp sl) x w)
    ∧ (∀ (ds : List CondDist) (x : Mat) (w : Val) (y : Val) (s : Mat) (k : ℕ),
      sample (.matrixProduct ds) x w = .ok y →
      form_standard (.matrixProduct ds) y = .ok (.mat s) →
      (∀ d ∈ ds, kind d = Kind.bernoulli ∨ kind d = Kind.gaussian) →
      s ≠ [] → (∀ r ∈ s, r.length = k) → ds.length = k → 1 ≤ k →
      chainStd (.matrixProduct ds) x w = standardOfSample (.matrixProduct ds) x w)
    ∧ (∀ (mf sf : Mat → Mat) (psg : List ℕ) (fb : Mat → Vec) (psb : List ℕ)
        (x : Mat) (zw : Mat) (bw : List Bool) (y : Val),
      sample (.matrixProduct [.gaussian mf sf psg, .bernoulli fb psb]) x
        (.list [.mat zw, .bvec bw]) = .ok y →
      standardOfSample (.matrixProduct [.gaussian mf sf psg, .bernoulli fb psb]) x
        (.list [.mat zw, .bvec bw]) = .error .runtimeError) := by
  refine ⟨?_, ?_, ?_, ?_, ?_, ?_, ?_, ?_, ?_⟩
  · exact fun f ps v => ⟨rfl, by simp [form_standard]⟩
  · exact fun mf sf ps v => ⟨rfl, by simp [form_standard]⟩
  · exact fun dd sp sl s hd h1 h2 => spikeSlab_compact_standard dd sp sl s hd h1 h2
  · exact fun ds s k hkind hne hrow hdk hk1 =>
      mp_compact_standard ds s k (fun d hd => idStandard_of_kind d (hkind d hd))
        hne hrow hdk hk1
  · exact fun f ps x w =>
      chain_id (.bernoulli f ps) (idStandard_of_kind _ (Or.inl rfl)) (fun v => rfl) x w
  · exact fun mf sf ps x w =>
      chain_id (.gaussian mf sf ps) (idStandard_of_kind _ (Or.inr rfl)) (fun v => rfl) x w
  · exact fun dd sp sl x w n support nz hd hsmp hnz =>
      spikeSlab_chain dd sp sl x w n support nz hd hsmp hnz
  · exact fun ds x w y s k h1 h2 hkind hne hrow hdk hk1 =>
      mp_chain ds x w y s k h1 h2 hkind hne hrow hdk hk1
  · exact fun mf sf psg fb psb x zw bw y h =>
      mp_bern_column_standard_fails mf sf psg fb psb x zw bw y h

/-- C4 witness: concrete instances of every hypothesis-bearing conjunct:
the spike-and-slab round trip on `[[1, 1]]`, the two-column matrix-product
round trip on `[[1, 2]]`, the sampling chains of the spike-and-slab and of
a two-Gaussian product, and the failing standard form of a
Gaussian+Bernoulli product sample. -/
theorem C4_round_trip_conversions_witness :
    (∃ c, form_compact spikeSlabTwo (.mat [[1, 1]]) = .ok c
      ∧ form_standard spikeSlabTwo c = .ok (.mat [[1, 1]]))
    ∧ (∃ c, form_compact (.matrixProduct [stdNormal, halfBern]) (.mat [[1, 2]]) = .ok c
      ∧ form_standard (.matrixProduct [stdNormal, halfBern]) c = .ok (.mat [[1, 2]]))
    ∧ chainStd spikeSlabTwo [[5]] (.list [.bvec [true], .mat [[1, 1]]])
      = standardOfSample spikeSlabTwo [[5]] (.list [.bvec [true], .mat [[1, 1]]])
    ∧ chainStd (.matrixProduct [stdNormal, stdNormal]) [[0]]
        (.list [.mat [[1]], .mat [[2]]])
      = standardOfSample (.matrixProduct [stdNormal, stdNormal]) [[0]]
        (.list [.mat [[1]], .mat [[2]]])
    ∧ standardOfSample (.matrixProduct [stdNormal, halfBern]) [[0]]
        (.list [.mat [[1]], .bvec [true]]) = .error .runtimeError := by
  refine ⟨?_, ?_, ?_, ?_, ?_⟩
  · exact C4_round_trip_conversions.2.2.1 2 halfBern slabTwoCol [[1, 1]] (by norm_num)
      (by intro r hr; simp at hr; rw [hr]; rfl)
      (by intro r hr; simp at hr; rw [hr]; exact Or.inr (by intro a ha; simp at ha; rw [ha]; norm_num))
  · exact C4_round_trip_conversions.2.2.2.1 [stdNormal, halfBern] [[1, 2]] 2
      (by intro d hd; simp at hd; rcases hd with rfl | rfl
          · exact Or.inr rfl
          · exact Or.inl rfl)
      (by simp) (by intro r hr; simp at hr; rw [hr]; rfl) rfl (by norm_num)
  · refine C4_round_trip_conversions.2.2.2.2.2.2.1 2 halfBern slabTwoCol [[5]]
      (.list [.bvec [true], .mat [[1, 1]]]) 1 [true] (.mat [[1, 1]]) (by norm_num)
      ?_ (Or.inr ⟨[[1, 1]], rfl, ?_⟩)
    · simp [sample, halfBern, slabTwoCol, form_standard, gauss_sample, matZipWith,
        maskSelect]
    · intro r hr
      simp at hr
      rw [hr]
      refine ⟨rfl, ?_⟩
      intro a ha
      simp at ha
      rw [ha]
      norm_num
  · refine C4_round_trip_conversions.2.2.2.2.2.2.2.1 [stdNormal, stdNormal] [[0]]
      (.list [.mat [[1]], .mat [[2]]]) (.list [.mat [[1]], .mat [[2]]]) [[1, 2]] 2
      ?_ ?_ ?_ (by simp) ?_ rfl (by norm_num)
    · simp [sample, sampleCols, stdNormal, gauss_sample, matZipWith]
    · simp [form_standard, formStdCols, stdNormal, allMats]
    · intro d hd
      simp at hd
      rw [hd]
      exact Or.inr rfl
    · intro r hr
      simp at hr
      rw [hr]
      rfl
  · refine C4_round_trip_conversions.2.2.2.2.2.2.2.2
      (fun x => x.map (fun _ => [0])) (fun x => x.map (fun _ => [1])) []
      (fun x => x.map (fun _ => Real.log (1 / 2))) [] [[0]] [[1]] [true]
      (.list [.mat [[1]], .bvec [true]]) ?_
    simp [sample, sampleCols, gauss_sample, matZipWith]

end TorchDistributions

end
